import Mathlib

/-!
Verification of the dfencoder `AutoEncoder` (morpheus/models/dfencoder/autoencoder.py)
against its natural-language specification.  The Python source is shallowly
embedded: torch loss tensors become lists (of lists) of rationals, pandas
columns become lists, and Python exceptions become an error kind returned
through `Except`.
-/

namespace DFEncoder

/-- Python exception classes raised by the source, plus the spec's abstract
taxonomy name `ConfigurationError`, which names no class in the source but is
needed to state spec-level claims about error classes. -/
inductive ErrKind where
  | valueError
  | typeError
  | keyError
  | notFittedError
  | configurationError
  deriving DecidableEq, Repr

/-- Mean of a loss tensor viewed as a flat list (`tensor.mean()` over a 1-d
tensor): sum divided by length. -/
def tensorMean (xs : List ℚ) : ℚ := xs.sum / xs.length

/-- Per-column means of a 2-d loss tensor (`tensor.mean(dim=0)`): for each
column index, the mean of that column over all rows (torch tensors are
rectangular, so every row has the same length as the first). -/
def meanDim0 (m : List (List ℚ)) : List ℚ :=
  (List.range (m.headD []).length).map fun j => tensorMean (m.map fun row => row.getD j 0)

/-- Overall mean of a 2-d loss tensor (`tensor.mean()`): the mean of all
elements. -/
def tensorMeanAll (m : List (List ℚ)) : ℚ := tensorMean m.flatten

/-- The tuple returned by `_compute_loss_from_targets`. -/
structure LossOutput where
  mseLoss : ℚ
  bceLoss : ℚ
  cceLoss : List ℚ
  netLoss : ℚ
  deriving DecidableEq, Repr

/-- Embedding of `_compute_loss_from_targets` (autoencoder.py lines 567-623).
The elementwise MSE/BCE loss matrices (rows x columns) and the per-row CCE
loss vectors of each categorical column are taken as inputs, since the
elementwise loss functions themselves are external torch modules; the function
aggregates exactly as the source does: `net_loss` collects the per-column
means of the MSE matrix, then of the BCE matrix, then each categorical
column's mean loss, and the reported net loss is the mean of that flat list,
while the returned `mse_loss`/`bce_loss` are overall means. -/
def computeLossFromTargets (mseMat bceMat : List (List ℚ)) (cceVecs : List (List ℚ)) :
    LossOutput :=
  let netList := meanDim0 mseMat ++ meanDim0 bceMat ++ cceVecs.map tensorMean
  { mseLoss := tensorMeanAll mseMat
    bceLoss := tensorMeanAll bceMat
    cceLoss := cceVecs.map tensorMean
    netLoss := tensorMean netList }

/-- Embedding of `_do_backward` (autoencoder.py lines 625-630): the scalar on
which `backward()` is called is `mse + bce` accumulated with each categorical
column's mean loss. -/
def doBackward (mse bce : ℚ) (cce : List ℚ) : ℚ :=
  cce.foldl (· + ·) (mse + bce)

theorem foldl_add_eq_add_sum (a : ℚ) (l : List ℚ) : l.foldl (· + ·) a = a + l.sum := by
  induction l generalizing a with
  | nil => simp
  | cons x xs ih => simp only [List.foldl_cons, ih, List.sum_cons]; ring

/-- Claim C1: for every batch, the scalar optimized by backpropagation equals
the mean MSE loss plus the mean BCE loss plus the sum of the per-column mean
CCE losses, while the reported net loss equals the unweighted arithmetic mean
of the flattened per-output-unit loss list (numeric column means, binary
column means, categorical column means); at the spec's example per-unit
losses `[0.1, 0.3]` numeric, `[0.2]` binary, `[0.4]` categorical the reported
net loss is `1/4 = 0.25` and the optimized scalar is the type-level sum
`0.2 + 0.2 + 0.4 = 4/5`. -/
theorem claim_C1_loss_aggregation (mseMat bceMat cceVecs : List (List ℚ)) :
    (doBackward (computeLossFromTargets mseMat bceMat cceVecs).mseLoss
        (computeLossFromTargets mseMat bceMat cceVecs).bceLoss
        (computeLossFromTargets mseMat bceMat cceVecs).cceLoss
      = tensorMeanAll mseMat + tensorMeanAll bceMat + (cceVecs.map tensorMean).sum)
    ∧ ((computeLossFromTargets mseMat bceMat cceVecs).netLoss
      = (meanDim0 mseMat ++ meanDim0 bceMat ++ cceVecs.map tensorMean).sum
        / (meanDim0 mseMat ++ meanDim0 bceMat ++ cceVecs.map tensorMean).length)
    ∧ (computeLossFromTargets [[1/10, 3/10]] [[1/5]] [[2/5]]).netLoss = 1/4
    ∧ doBackward (computeLossFromTargets [[1/10, 3/10]] [[1/5]] [[2/5]]).mseLoss
        (computeLossFromTargets [[1/10, 3/10]] [[1/5]] [[2/5]]).bceLoss
        (computeLossFromTargets [[1/10, 3/10]] [[1/5]] [[2/5]]).cceLoss = 4/5 := by
  refine ⟨?_, rfl, ?_, ?_⟩
  · simp [doBackward, computeLossFromTargets, foldl_add_eq_add_sum]
  · norm_num [computeLossFromTargets, doBackward, meanDim0, tensorMeanAll, tensorMean, List.range_succ]
  · norm_num [computeLossFromTargets, doBackward, meanDim0, tensorMeanAll, tensorMean, List.range_succ]

/-- Comparison `curr_val_loss > last_val_loss` where `last_val_loss` starts as
Python's `float('inf')`, modelled as `none`: a finite rational is never
greater than infinity. -/
def gtLastLoss (curr : ℚ) : Option ℚ → Bool
  | none => false
  | some last => decide (last < curr)

/-- Embedding of the `_fit_data` epoch loop (autoencoder.py lines 777-833) in
centralized mode, where `should_early_stop_synced = should_early_stop` and the
current process is the main process.  Arguments after `valLoss`: remaining
epochs, epochs already executed, the early-stop counter `count_es`, and
`last_val_loss`.  `valLoss e` is the validation loss `_validate_dataset`
returns after epoch `e`; `runVal` is `run_validation and val_data is not None`.
Returns the number of epochs executed and whether the loop exited early.  As
in the source, the counter/stop logic and the `last_val_loss` update run only
when validation ran and `self.patience` is truthy. -/
def fitLoopGo (patience : Nat) (runVal : Bool) (valLoss : Nat → ℚ) :
    Nat → Nat → Nat → Option ℚ → Nat × Bool
  | 0, done, _, _ => (done, false)
  | rem + 1, done, count, last =>
    if runVal then
      let curr := valLoss done
      if patience ≠ 0 then
        if gtLastLoss curr last then
          if patience ≤ count + 1 then (done + 1, true)
          else fitLoopGo patience runVal valLoss rem (done + 1) (count + 1) (some curr)
        else fitLoopGo patience runVal valLoss rem (done + 1) 0 (some curr)
      else fitLoopGo patience runVal valLoss rem (done + 1) count last
    else fitLoopGo patience runVal valLoss rem (done + 1) count last

/-- The epoch loop started from its initial state: `count_es = 0`,
`last_val_loss = float('inf')`, no epochs executed yet. -/
def fitLoop (patience epochs : Nat) (runVal : Bool) (valLoss : Nat → ℚ) : Nat × Bool :=
  fitLoopGo patience runVal valLoss epochs 0 0 none

/-- The early-stop counter as the claim describes it: after epoch `e+1` it is
incremented when validation loss rose strictly from epoch `e`, and reset to
zero when it fell or tied; after the first epoch there is no previous loss and
the counter is zero. -/
def esCounter (valLoss : Nat → ℚ) : Nat → Nat
  | 0 => 0
  | e + 1 => if valLoss e < valLoss (e + 1) then esCounter valLoss e + 1 else 0

/-- Claim-level reformulation of the epoch loop: stop right after the first
executed epoch whose counter reached `patience`. -/
def esSpecLoop (patience : Nat) (valLoss : Nat → ℚ) : Nat → Nat → Nat × Bool
  | 0, done => (done, false)
  | rem + 1, done =>
    if patience ≤ esCounter valLoss done then (done + 1, true)
    else esSpecLoop patience valLoss rem (done + 1)

/-- The value of `count_es` at the start of epoch `done`. -/
def countAt (valLoss : Nat → ℚ) : Nat → Nat
  | 0 => 0
  | e + 1 => esCounter valLoss e

/-- The value of `last_val_loss` at the start of epoch `done`. -/
def lastAt (valLoss : Nat → ℚ) : Nat → Option ℚ
  | 0 => none
  | e + 1 => some (valLoss e)

theorem countAt_succ (valLoss : Nat → ℚ) (e : Nat) :
    countAt valLoss (e + 1) = esCounter valLoss e := rfl

theorem lastAt_succ (valLoss : Nat → ℚ) (e : Nat) :
    lastAt valLoss (e + 1) = some (valLoss e) := rfl

theorem fitLoopGo_eq_esSpecLoop (patience : Nat) (valLoss : Nat → ℚ) (hp : 0 < patience) :
    ∀ rem done,
      fitLoopGo patience true valLoss rem done (countAt valLoss done) (lastAt valLoss done)
        = esSpecLoop patience valLoss rem done := by
  intro rem
  induction rem with
  | zero => intro _; rfl
  | succ n ih =>
    intro done
    have hp' : ¬ patience = 0 := by omega
    cases hgt : gtLastLoss (valLoss done) (lastAt valLoss done) with
    | false =>
      have hcnext : esCounter valLoss done = 0 := by
        match done, hgt with
        | 0, _ => rfl
        | e + 1, hgt =>
          have hnr : ¬ valLoss e < valLoss (e + 1) := by
            simpa [gtLastLoss, lastAt] using hgt
          simp [esCounter, hnr]
      have hL : fitLoopGo patience true valLoss (n + 1) done
            (countAt valLoss done) (lastAt valLoss done)
          = fitLoopGo patience true valLoss n (done + 1) 0 (some (valLoss done)) := by
        simp [fitLoopGo, hp', hgt]
      have hR : esSpecLoop patience valLoss (n + 1) done
          = esSpecLoop patience valLoss n (done + 1) := by
        simp only [esSpecLoop]
        rw [if_neg (by omega)]
      rw [hL, hR]
      have h2 := ih (done + 1)
      rw [countAt_succ, lastAt_succ, hcnext] at h2
      exact h2
    | true =>
      have hdone : ∃ e, done = e + 1 := by
        match done, hgt with
        | 0, hgt => simp [gtLastLoss, lastAt] at hgt
        | e + 1, _ => exact ⟨e, rfl⟩
      obtain ⟨e, rfl⟩ := hdone
      have hrise : valLoss e < valLoss (e + 1) := by
        simpa [gtLastLoss, lastAt] using hgt
      have hc : esCounter valLoss (e + 1) = esCounter valLoss e + 1 := by
        simp [esCounter, hrise]
      have hcount : countAt valLoss (e + 1) + 1 = esCounter valLoss (e + 1) := by
        rw [countAt_succ, hc]
      by_cases hstop : patience ≤ esCounter valLoss (e + 1)
      · have hL : fitLoopGo patience true valLoss (n + 1) (e + 1)
              (countAt valLoss (e + 1)) (lastAt valLoss (e + 1)) = (e + 1 + 1, true) := by
          simp [fitLoopGo, hp', hgt, hcount, hstop]
        have hR : esSpecLoop patience valLoss (n + 1) (e + 1) = (e + 1 + 1, true) := by
          simp [esSpecLoop, hstop]
        rw [hL, hR]
      · have hL : fitLoopGo patience true valLoss (n + 1) (e + 1)
              (countAt valLoss (e + 1)) (lastAt valLoss (e + 1))
            = fitLoopGo patience true valLoss n (e + 1 + 1)
              (esCounter valLoss (e + 1)) (some (valLoss (e + 1))) := by
          simp [fitLoopGo, hp', hgt, hcount, hstop]
        have hR : esSpecLoop patience valLoss (n + 1) (e + 1)
            = esSpecLoop patience valLoss n (e + 1 + 1) := by
          simp [esSpecLoop, hstop]
        rw [hL, hR]
        have h2 := ih (e + 1 + 1)
        rw [countAt_succ, lastAt_succ] at h2
        exact h2

theorem esSpecLoop_stop (patience : Nat) (valLoss : Nat → ℚ) :
    ∀ rem done n, esSpecLoop patience valLoss rem done = (n, true) →
      done < n ∧ n ≤ done + rem ∧ patience ≤ esCounter valLoss (n - 1)
        ∧ ∀ e, done ≤ e → e < n - 1 → esCounter valLoss e < patience := by
  intro rem
  induction rem with
  | zero => intro done n h; simp [esSpecLoop] at h
  | succ m ih =>
    intro done n h
    simp only [esSpecLoop] at h
    by_cases hc : patience ≤ esCounter valLoss done
    · rw [if_pos hc] at h
      obtain ⟨hn, _⟩ := Prod.mk.injEq .. ▸ h
      refine ⟨by omega, by omega, by simpa [show n - 1 = done by omega] using hc, ?_⟩
      intro e he1 he2
      omega
    · rw [if_neg hc] at h
      obtain ⟨h1, h2, h3, h4⟩ := ih (done + 1) n h
      refine ⟨by omega, by omega, h3, ?_⟩
      intro e he1 he2
      rcases Nat.eq_or_lt_of_le he1 with rfl | hlt
      · omega
      · exact h4 e (by omega) he2

theorem esSpecLoop_nostop (patience : Nat) (valLoss : Nat → ℚ) :
    ∀ rem done n, esSpecLoop patience valLoss rem done = (n, false) →
      n = done + rem ∧ ∀ e, done ≤ e → e < n → esCounter valLoss e < patience := by
  intro rem
  induction rem with
  | zero =>
    intro done n h
    simp only [esSpecLoop, Prod.mk.injEq] at h
    exact ⟨by omega, fun e he1 he2 => by omega⟩
  | succ m ih =>
    intro done n h
    simp only [esSpecLoop] at h
    by_cases hc : patience ≤ esCounter valLoss done
    · rw [if_pos hc] at h
      simp at h
    · rw [if_neg hc] at h
      obtain ⟨h1, h2⟩ := ih (done + 1) n h
      refine ⟨by omega, ?_⟩
      intro e he1 he2
      rcases Nat.eq_or_lt_of_le he1 with rfl | hlt
      · omega
      · exact h2 e (by omega) he2

theorem fitLoopGo_noval (patience : Nat) (valLoss : Nat → ℚ) :
    ∀ rem done count last,
      fitLoopGo patience false valLoss rem done count last = (done + rem, false) := by
  intro rem
  induction rem with
  | zero => intro done count last; rfl
  | succ n ih =>
    intro done count last
    simp only [fitLoopGo, Bool.false_eq_true, if_false, ih]
    exact congrArg (·, false) (by omega)

theorem fitLoopGo_nopatience (valLoss : Nat → ℚ) (runVal : Bool) :
    ∀ rem done count last,
      fitLoopGo 0 runVal valLoss rem done count last = (done + rem, false) := by
  intro rem
  induction rem with
  | zero => intro done count last; rfl
  | succ n ih =>
    intro done count last
    match runVal with
    | false => simp only [fitLoopGo, Bool.false_eq_true, if_false, ih]; exact congrArg (·, false) (by omega)
    | true =>
      simp only [fitLoopGo, if_true, ne_eq, not_true_eq_false, if_false, ite_not, ih]
      exact congrArg (·, false) (by omega)

/-- Claim C2: with validation enabled and a truthy `patience`, the early-stop
counter rises by one whenever the validation loss strictly rose from the
previous epoch and resets to zero otherwise, and the epoch loop exits exactly
at the first epoch where the counter reaches `patience` (never earlier); with
`patience` falsy, or with validation not run, the loop always runs all
`epochs` epochs and never early-stops. -/
theorem claim_C2_early_stopping (patience epochs : Nat) (valLoss : Nat → ℚ) :
    (∀ n, 0 < patience → fitLoop patience epochs true valLoss = (n, true) →
      0 < n ∧ n ≤ epochs ∧ esCounter valLoss (n - 1) = patience
        ∧ ∀ e, e < n - 1 → esCounter valLoss e < patience)
    ∧ (∀ n, 0 < patience → fitLoop patience epochs true valLoss = (n, false) →
      n = epochs ∧ ∀ e, e < epochs → esCounter valLoss e < patience)
    ∧ fitLoop 0 epochs true valLoss = (epochs, false)
    ∧ fitLoop patience epochs false valLoss = (epochs, false) := by
  refine ⟨?_, ?_, ?_, ?_⟩
  · intro n hp h
    have hbridge : fitLoop patience epochs true valLoss = esSpecLoop patience valLoss epochs 0 :=
      fitLoopGo_eq_esSpecLoop patience valLoss hp epochs 0
    rw [hbridge] at h
    obtain ⟨h1, h2, h3, h4⟩ := esSpecLoop_stop patience valLoss epochs 0 n h
    have h4' : ∀ e, e < n - 1 → esCounter valLoss e < patience :=
      fun e he => h4 e (Nat.zero_le e) he
    refine ⟨by omega, by omega, ?_, h4'⟩
    match hn : n - 1, h3, h4' with
    | 0, h3, _ =>
      have : esCounter valLoss 0 = 0 := rfl
      omega
    | m + 1, h3, h4' =>
      have hm : esCounter valLoss m < patience := h4' m (by omega)
      rcases Nat.lt_or_ge 0 (esCounter valLoss (m + 1)) with hpos | hz
      · have : esCounter valLoss (m + 1) = esCounter valLoss m + 1 := by
          by_cases hr : valLoss m < valLoss (m + 1)
          · simp [esCounter, hr]
          · simp [esCounter, hr] at hpos
        omega
      · omega
  · intro n hp h
    have hbridge : fitLoop patience epochs true valLoss = esSpecLoop patience valLoss epochs 0 :=
      fitLoopGo_eq_esSpecLoop patience valLoss hp epochs 0
    rw [hbridge] at h
    obtain ⟨h1, h2⟩ := esSpecLoop_nostop patience valLoss epochs 0 n h
    exact ⟨by omega, fun e he => h2 e (Nat.zero_le e) (by omega)⟩
  · simpa using fitLoopGo_nopatience valLoss true epochs 0 0 none
  · simpa using fitLoopGo_noval patience valLoss epochs 0 0 none

/-- Witness for the early-stopping claim: with `patience = 2`, `epochs = 5`
and a strictly rising validation loss sequence, the loop runs exactly three
epochs and stops with the counter at the patience threshold. -/
theorem claim_C2_early_stopping_witness :
    0 < 2
    ∧ 0 < (3 : Nat) ∧ (3 : Nat) ≤ 5
    ∧ esCounter (fun e => (e : ℚ)) (3 - 1) = 2
    ∧ ∀ e, e < 3 - 1 → esCounter (fun e => (e : ℚ)) e < 2 := by
  have hrun : fitLoop 2 5 true (fun e => (e : ℚ)) = (3, true) := by
    norm_num [fitLoop, fitLoopGo, gtLastLoss]
  have h := (claim_C2_early_stopping 2 5 (fun e => (e : ℚ))).1 3 (by norm_num) hrun
  exact ⟨by norm_num, h⟩

/-- A fitted binary feature as `_init_binary` (autoencoder.py lines 308-324)
builds it for a boolean column: `cats` is the two-element category list
`feature['cats']`, and `mapTrue`/`mapFalse` are the encode map entries
`feature[True]`/`feature[False]` used by `prepare_df`'s
`feature.get(x, False)`. -/
structure BinFeature where
  cats0 : Bool
  cats1 : Bool
  mapTrue : Bool
  mapFalse : Bool
  deriving DecidableEq, Repr

/-- `_init_binary`'s construction for each listed binary column:
`feature['cats'] = [True, False]; feature[True] = True; feature[False] =
False`. -/
def initBinaryFeature : BinFeature :=
  { cats0 := true, cats1 := false, mapTrue := true, mapFalse := false }

/-- `prepare_df`'s binary encoding (autoencoder.py line 381):
`feature.get(x, False)`; for a boolean input `x` this looks up
`feature[True]` or `feature[False]`. -/
def binEncode (f : BinFeature) (x : Bool) : Bool :=
  if x then f.mapTrue else f.mapFalse

/-- `_decode_outputs_to_df`'s binary decoding (autoencoder.py lines
1177-1184): the model output is rounded to a boolean and mapped through
`{False: feature['cats'][0], True: feature['cats'][1]}`. -/
def binDecode (f : BinFeature) (rounded : Bool) : Bool :=
  if rounded then f.cats1 else f.cats0

/-- Encode-then-decode round trip through an identity-like model: the target
tensor entry is `int(binEncode x)`, an identity model reproduces it, and
rounding recovers `binEncode x`, which decoding maps back through `cats`. -/
def binRoundTrip (f : BinFeature) (x : Bool) : Bool :=
  binDecode f (binEncode f x)

/-- Claim C3 evaluated on the code: with the feature `_init_binary` builds,
the round trip through an identity-like model flips both boolean labels
instead of reproducing them, because `feature['cats'] = [True, False]` lists
the true label first while decoding maps rounded `False` to `cats[0]` and
rounded `True` to `cats[1]`. -/
theorem claim_C3_binary_roundtrip_flips :
    binRoundTrip initBinaryFeature true = false
    ∧ binRoundTrip initBinaryFeature false = true
    ∧ binEncode initBinaryFeature true = true
    ∧ binDecode initBinaryFeature true = false := by
  refine ⟨rfl, rfl, rfl, rfl⟩

/-- Embedding of the guard in `_init_features` (autoencoder.py lines
341-348): with no dataframe, all three of `preset_cats`,
`preset_numerical_scaler_params` and `binary_feature_list` must have been
supplied at construction, otherwise a `ValueError` is raised; the later
`_init_numeric`/`_init_binary` raises are subsumed by this guard, so every
other input succeeds.  The four inputs only matter through presence/absence,
so their payload types are parameters. -/
def initFeatures {α β γ δ : Type} (df : Option α) (presetCats : Option β)
    (presetNumScalerParams : Option γ) (binaryFeatureList : Option δ) :
    Except ErrKind Unit :=
  if df.isNone ∧ (presetCats.isNone ∨ binaryFeatureList.isNone ∨ presetNumScalerParams.isNone)
  then .error .valueError
  else .ok ()

/-- Claim C4 counterexample: with no dataframe and no presets at all, feature
initialization raises `ValueError`, not the spec's `ConfigurationError` (no
such class exists in the source). -/
theorem claim_C4_counterexample :
    initFeatures (α := Unit) (β := Unit) (γ := Unit) (δ := Unit) none none none none
      = .error .valueError
    ∧ ErrKind.valueError ≠ ErrKind.configurationError := by
  exact ⟨rfl, by decide⟩

/-- Claim C4 as amended: feature initialization fails — with `ValueError`,
the repository defines no `ConfigurationError` class — exactly when no
dataframe is supplied and any of the three presets (categorical presets,
numeric scaler presets, binary column list) is missing; otherwise it
succeeds. -/
theorem claim_C4_init_features_error {α β γ δ : Type} (df : Option α)
    (presetCats : Option β) (presetNumScalerParams : Option γ)
    (binaryFeatureList : Option δ) :
    (initFeatures df presetCats presetNumScalerParams binaryFeatureList
        = .error .valueError
      ↔ df.isNone ∧ (presetCats.isNone ∨ binaryFeatureList.isNone
          ∨ presetNumScalerParams.isNone))
    ∧ (¬ (df.isNone ∧ (presetCats.isNone ∨ binaryFeatureList.isNone
          ∨ presetNumScalerParams.isNone)) →
      initFeatures df presetCats presetNumScalerParams binaryFeatureList = .ok ()) := by
  constructor
  · constructor
    · intro h
      by_contra hc
      rw [initFeatures, if_neg hc] at h
      exact Except.noConfusion h
    · intro h
      rw [initFeatures, if_pos h]
  · intro h
    rw [initFeatures, if_neg h]

/-- Witness for the amended C4 theorem: a dataframe alone suffices, and
missing everything fails with `ValueError`. -/
theorem claim_C4_init_features_error_witness :
    initFeatures (α := Unit) (β := Unit) (γ := Unit) (δ := Unit) (some ()) none none none
      = .ok () := by
  have h := (claim_C4_init_features_error (α := Unit) (β := Unit) (γ := Unit) (δ := Unit)
    (some ()) none none none).2
  exact h (by simp)

/-- The scaler classes `_get_scaler` can return. -/
inductive ScalerKind where
  | standardScaler
  | gaussRankScaler
  | modifiedScaler
  | nullScaler
  deriving DecidableEq, Repr

/-- Embedding of `_get_scaler` (autoencoder.py lines 217-225): a Python dict
lookup keyed by `'standard'`, `'gauss_rank'`, `'modified'`, `None` and
`'none'`; any other key raises `KeyError`. -/
def getScaler (name : Option String) : Except ErrKind ScalerKind :=
  if name = some "standard" then .ok .standardScaler
  else if name = some "gauss_rank" then .ok .gaussRankScaler
  else if name = some "modified" then .ok .modifiedScaler
  else if name = none then .ok .nullScaler
  else if name = some "none" then .ok .nullScaler
  else .error .keyError

/-- `AutoEncoder.__init__` line 215: the construction-time lookup
`self.loss_scaler = self._get_scaler(loss_scaler)`, so constructing the model
evaluates `getScaler` on the `loss_scaler` argument. -/
def autoEncoderInitLossScaler (lossScaler : Option String) : Except ErrKind ScalerKind :=
  getScaler lossScaler

/-- Claim C10: for every scaler name outside
`{'standard', 'gauss_rank', 'modified', 'none'}` (and not `None`), the
construction-time loss-scaler lookup raises `KeyError`, which is none of the
error classes in the spec's taxonomy. -/
theorem claim_C10_unknown_scaler_keyerror (name : String)
    (h1 : name ≠ "standard") (h2 : name ≠ "gauss_rank") (h3 : name ≠ "modified")
    (h4 : name ≠ "none") :
    autoEncoderInitLossScaler (some name) = .error .keyError
    ∧ ErrKind.keyError ≠ ErrKind.valueError
    ∧ ErrKind.keyError ≠ ErrKind.typeError
    ∧ ErrKind.keyError ≠ ErrKind.notFittedError
    ∧ ErrKind.keyError ≠ ErrKind.configurationError := by
  refine ⟨?_, by decide, by decide, by decide, by decide⟩
  rw [autoEncoderInitLossScaler, getScaler]
  rw [if_neg (by simpa using h1), if_neg (by simpa using h2), if_neg (by simpa using h3),
    if_neg (by simp), if_neg (by simpa using h4)]

/-- Witness for C10: `loss_scaler='robust'` fails at construction with
`KeyError`. -/
theorem claim_C10_unknown_scaler_keyerror_witness :
    autoEncoderInitLossScaler (some "robust") = .error .keyError := by
  exact (claim_C10_unknown_scaler_keyerror "robust" (by decide) (by decide) (by decide)
    (by decide)).1

/-- Construction-time defaults of `AutoEncoder.__init__` (autoencoder.py
lines 107-142) that the claims mention. -/
structure AEConfig where
  minCats : Nat
  swapP : ℚ
  batchSize : Nat
  evalBatchSize : Nat
  patience : Nat
  scaler : String
  lossScaler : String
  deriving DecidableEq, Repr

/-- `min_cats=10, swap_p=.15, batch_size=256, eval_batch_size=1024,
patience=5, scaler='standard', loss_scaler='standard'`. -/
def defaultAEConfig : AEConfig :=
  { minCats := 10, swapP := 15 / 100, batchSize := 256, evalBatchSize := 1024,
    patience := 5, scaler := "standard", lossScaler := "standard" }

/-- Embedding of `_init_cats` (autoencoder.py lines 280-287): a category of an
object column is kept iff its value count in the fitting column is at least
`min_cats`.  `value_counts` lists the distinct observed values (ordered by
frequency; the claims are order-independent, so first-occurrence order is
used here). -/
def initCats (minCats : Nat) (col : List String) : List String :=
  col.dedup.filter fun v => minCats ≤ col.count v

/-- `prepare_df`'s categorical transform (autoencoder.py lines 383-387):
`pd.Categorical(df[ft], categories=cats + ['_other'])` followed by
`fillna('_other')` sends every value outside `cats` (unseen or not retained)
to `'_other'`. -/
def catTransform (cats : List String) (v : String) : String :=
  if v ∈ cats then v else "_other"

/-- The integer code `compute_targets` reads off (`df[ft].cat.codes`): the
position of the transformed value in `cats + ['_other']`. -/
def catCode (cats : List String) (v : String) : Nat :=
  if v ∈ cats then cats.indexOf v else cats.length

/-- Claim C6: a category is retained iff it occurs at least `min_cats` times
in the fit column (`min_cats` defaults to 10); any non-retained or unseen
value transforms to `'_other'`, whose code is the last slot `len(cats)`;
`'_other'` is always the last category, giving `len(cats) + 1` classes; the
transform is total, so an unseen value never crashes it. -/
theorem claim_C6_category_retention (minCats : Nat) (col : List String) (v : String)
    (hm : 0 < minCats) :
    (v ∈ initCats minCats col ↔ minCats ≤ col.count v)
    ∧ (¬ minCats ≤ col.count v → catTransform (initCats minCats col) v = "_other")
    ∧ (v ∉ initCats minCats col → catCode (initCats minCats col) v
        = (initCats minCats col).length)
    ∧ (initCats minCats col ++ ["_other"]).getLast? = some "_other"
    ∧ (initCats minCats col ++ ["_other"]).length = (initCats minCats col).length + 1
    ∧ defaultAEConfig.minCats = 10 := by
  have hmem : v ∈ initCats minCats col ↔ minCats ≤ col.count v := by
    rw [initCats, List.mem_filter, List.mem_dedup]
    constructor
    · rintro ⟨_, h⟩; exact of_decide_eq_true h
    · intro h
      have hv : v ∈ col := by
        have : 0 < col.count v := lt_of_lt_of_le hm h
        exact List.count_pos_iff.mp this
      exact ⟨hv, decide_eq_true h⟩
  refine ⟨hmem, ?_, ?_, ?_, by simp, rfl⟩
  · intro h
    have : v ∉ initCats minCats col := fun hc => h (hmem.mp hc)
    rw [catTransform, if_neg this]
  · intro h
    rw [catCode, if_neg h]
  · simp [List.getLast?_append]

/-- Witness for the category-retention claim: with `min_cats = 2` only the
triple-occurring value is retained, and the rare value transforms to
`'_other'`. -/
theorem claim_C6_category_retention_witness :
    (0 : Nat) < 2
    ∧ catTransform (initCats 2 ["a", "a", "b", "a"]) "b" = "_other"
    ∧ ("a" ∈ initCats 2 ["a", "a", "b", "a"] ↔ 2 ≤ List.count "a" ["a", "a", "b", "a"]) := by
  have hb := claim_C6_category_retention 2 ["a", "a", "b", "a"] "b" (by decide)
  have ha := claim_C6_category_retention 2 ["a", "a", "b", "a"] "a" (by decide)
  exact ⟨by decide, hb.2.1 (by decide), ha.1⟩

/-- Helper loop for the first-maximum arg-max: carries the best index, best
value, and the index of the next element. -/
def argmaxGo (bestIdx : Nat) (bestVal : ℚ) (i : Nat) : List ℚ → Nat
  | [] => bestIdx
  | x :: rest =>
    if bestVal < x then argmaxGo i x (i + 1) rest
    else argmaxGo bestIdx bestVal (i + 1) rest

/-- `torch.argmax` over a 1-d list of logits: the index of the first maximal
entry (0 for the empty list). -/
def argmaxIdx : List ℚ → Nat
  | [] => 0
  | x :: rest => argmaxGo 0 x 1 rest

theorem argmaxGo_lt (N : Nat) :
    ∀ (rest : List ℚ) (bestIdx : Nat) (bestVal : ℚ) (i : Nat),
      bestIdx < N → i + rest.length ≤ N → argmaxGo bestIdx bestVal i rest < N := by
  intro rest
  induction rest with
  | nil => intro bestIdx bestVal i h _; exact h
  | cons x xs ih =>
    intro bestIdx bestVal i h hlen
    simp only [List.length_cons] at hlen
    rw [argmaxGo]
    by_cases hx : bestVal < x
    · rw [if_pos hx]; exact ih i x (i + 1) (by omega) (by omega)
    · rw [if_neg hx]; exact ih bestIdx bestVal (i + 1) h (by omega)

theorem argmaxIdx_lt (xs : List ℚ) (h : xs ≠ []) : argmaxIdx xs < xs.length := by
  match xs, h with
  | x :: rest, _ =>
    rw [argmaxIdx, List.length_cons]
    exact argmaxGo_lt (rest.length + 1) rest 0 x 1 (by omega) (by omega)

/-- `_decode_outputs_to_df`'s categorical decoding (autoencoder.py lines
1186-1199): when at least one category was retained the arg-max is taken over
the logits excluding the last (`_other`) one, otherwise over all logits; the
resulting index is looked up in `cats + ['_other']` (always in range there,
so the `getD` default is never used). -/
def decodeCatColumn (cats : List String) (logits : List ℚ) : String :=
  let code := if 0 < cats.length then argmaxIdx logits.dropLast else argmaxIdx logits
  (cats ++ ["_other"]).getD code "_other"

/-- Claim C7: a categorical column with at least one retained category decodes
to a retained category — never to `'_other'` — because the arg-max excludes
the last logit; a column with zero retained categories falls back to the full
arg-max over its single `_other` logit and decodes to `'_other'`. -/
theorem claim_C7_decode_excludes_other (cats : List String) (logits : List ℚ)
    (hlen : logits.length = cats.length + 1) :
    (cats ≠ [] → decodeCatColumn cats logits ∈ cats)
    ∧ (cats ≠ [] → "_other" ∉ cats → decodeCatColumn cats logits ≠ "_other")
    ∧ (cats = [] → decodeCatColumn cats logits = "_other") := by
  have hmem : cats ≠ [] → decodeCatColumn cats logits ∈ cats := by
    intro hne
    have hpos : 0 < cats.length := List.length_pos.mpr hne
    have hdl : logits.dropLast.length = cats.length := by
      rw [List.length_dropLast, hlen]; omega
    have hdne : logits.dropLast ≠ [] := by
      intro hnil
      rw [hnil] at hdl
      simp at hdl
      omega
    have hidx : argmaxIdx logits.dropLast < cats.length := by
      have := argmaxIdx_lt logits.dropLast hdne
      rwa [hdl] at this
    rw [decodeCatColumn]
    simp only [hpos, if_pos]
    rw [List.getD_eq_getElem?_getD, List.getElem?_append_left hidx,
      List.getElem?_eq_getElem hidx]
    exact List.getElem_mem hidx
  refine ⟨hmem, ?_, ?_⟩
  · intro hne hno heq
    exact hno (heq ▸ hmem hne)
  · intro hnil
    subst hnil
    match logits, hlen with
    | [x], _ => rfl

/-- Witness for the categorical-decode claim: with two retained categories and
logits `[1, 3, 2]`, decoding picks a retained category and not `'_other'`. -/
theorem claim_C7_decode_excludes_other_witness :
    ([(1 : ℚ), 3, 2].length = (["a", "b"] : List String).length + 1)
    ∧ decodeCatColumn ["a", "b"] [(1 : ℚ), 3, 2] ∈ (["a", "b"] : List String) := by
  have h := claim_C7_decode_excludes_other ["a", "b"] [(1 : ℚ), 3, 2] (by decide)
  exact ⟨by decide, h.1 (by decide)⟩

/-- Number of batches `_get_anomaly_score_losses` runs (autoencoder.py lines
1213-1215): `len(df) // self.batch_size`, plus one when the division leaves a
remainder.  The source uses the training `batch_size` here, not
`eval_batch_size`. -/
def nAnomalyBatches (batchSize n : Nat) : Nat :=
  n / batchSize + (if n % batchSize > 0 then 1 else 0)

/-- The row slices `df.iloc[start:stop]` that `_get_anomaly_score_losses`
takes, with `start = i * batch_size` and `stop = (i + 1) * batch_size`. -/
def anomalyBatches {α : Type} (batchSize : Nat) (df : List α) : List (List α) :=
  (List.range (nAnomalyBatches batchSize df.length)).map
    fun i => (df.drop (i * batchSize)).take batchSize

/-- The concatenated per-feature-type loss tensor `torch.cat(slices, dim=0)`:
each slice is prepared (`prepare_df` on the raw slice, without any `swap`
corruption) and pushed through the model, producing a per-row loss vector for
that feature type; the model-and-loss composite is abstracted as the per-row
function `rowLoss`. -/
def anomalyLossTensor {α : Type} (rowLoss : α → List ℚ) (batchSize : Nat)
    (df : List α) : List (List ℚ) :=
  ((anomalyBatches batchSize df).map fun b => b.map rowLoss).flatten

theorem chunks_flatten (batchSize : Nat) {α : Type} :
    ∀ (k : Nat) (df : List α), df.length ≤ k * batchSize →
      ((List.range k).map fun i => (df.drop (i * batchSize)).take batchSize).flatten
        = df := by
  intro k
  induction k with
  | zero =>
    intro df h
    simp only [Nat.zero_mul, Nat.le_zero] at h
    rw [List.eq_nil_of_length_eq_zero h]
    rfl
  | succ n ih =>
    intro df h
    rw [List.range_succ_eq_map, List.map_cons, List.map_map, List.flatten_cons]
    have hzero : (df.drop (0 * batchSize)).take batchSize = df.take batchSize := by
      rw [Nat.zero_mul, List.drop_zero]
    rw [hzero]
    have hmap : (List.range n).map
          ((fun i => (df.drop (i * batchSize)).take batchSize) ∘ Nat.succ)
        = (List.range n).map
          (fun i => ((df.drop batchSize).drop (i * batchSize)).take batchSize) := by
      refine List.map_congr_left ?_
      intro i _
      simp only [Function.comp_apply]
      rw [Nat.succ_mul, List.drop_drop]
      congr 2
      omega
    rw [hmap]
    have hlen : (df.drop batchSize).length ≤ n * batchSize := by
      rw [List.length_drop]
      rw [Nat.succ_mul] at h
      omega
    rw [ih (df.drop batchSize) hlen]
    exact List.take_append_drop batchSize df

theorem le_nAnomalyBatches_mul (batchSize : Nat) (hbs : 0 < batchSize) (n : Nat) :
    n ≤ nAnomalyBatches batchSize n * batchSize := by
  have hdm := Nat.div_add_mod n batchSize
  have hmlt : n % batchSize < batchSize := Nat.mod_lt n hbs
  rw [nAnomalyBatches]
  by_cases hz : n % batchSize = 0
  · rw [hz]
    simp only [gt_iff_lt, Nat.lt_irrefl, if_false, Nat.add_zero]
    rw [Nat.mul_comm]
    omega
  · rw [if_pos (by omega)]
    rw [Nat.add_mul, Nat.one_mul, Nat.mul_comm]
    omega

theorem nAnomalyBatches_eq_ceil (batchSize : Nat) (hbs : 0 < batchSize) (n : Nat) :
    nAnomalyBatches batchSize n = (n + batchSize - 1) / batchSize := by
  have hdm := Nat.div_add_mod n batchSize
  have hmlt : n % batchSize < batchSize := Nat.mod_lt n hbs
  by_cases hz : n % batchSize = 0
  · by_cases hn0 : n = 0
    · subst hn0
      simp [nAnomalyBatches, Nat.div_eq_of_lt (show batchSize - 1 < batchSize by omega)]
    · have h1 : n + batchSize - 1 = (batchSize - 1) + batchSize * (n / batchSize) := by
        omega
      have h2 : ((batchSize - 1) + batchSize * (n / batchSize)) / batchSize
          = (batchSize - 1) / batchSize + n / batchSize := Nat.add_mul_div_left _ _ hbs
      have h3 : (batchSize - 1) / batchSize = 0 := Nat.div_eq_of_lt (by omega)
      rw [nAnomalyBatches, h1, h2, h3]
      simp [hz]
  · have hpos : 0 < n % batchSize := Nat.pos_of_ne_zero hz
    have hms : batchSize * (n / batchSize + 1) = batchSize * (n / batchSize) + batchSize := by
      rw [Nat.mul_add, Nat.mul_one]
    have h1 : n + batchSize - 1 = (n % batchSize - 1) + batchSize * (n / batchSize + 1) := by
      omega
    have h2 : ((n % batchSize - 1) + batchSize * (n / batchSize + 1)) / batchSize
        = (n % batchSize - 1) / batchSize + (n / batchSize + 1) := Nat.add_mul_div_left _ _ hbs
    have h3 : (n % batchSize - 1) / batchSize = 0 := Nat.div_eq_of_lt (by omega)
    rw [nAnomalyBatches, h1, h2, h3]
    simp [hpos]

/-- Claim C5 counterexample: at the constructor defaults, the anomaly-score
path splits a 1000-row dataframe into 4 batches (it batches at the training
`batch_size` of 256), not the single batch that
`ceil(1000 / eval_batch_size)` with `eval_batch_size = 1024` would give. -/
theorem claim_C5_counterexample :
    (anomalyBatches defaultAEConfig.batchSize (List.replicate 1000 (0 : Nat))).length = 4
    ∧ (1000 + defaultAEConfig.evalBatchSize - 1) / defaultAEConfig.evalBatchSize = 1
    ∧ (4 : Nat) ≠ 1 := by
  refine ⟨?_, by norm_num [defaultAEConfig], by decide⟩
  rw [anomalyBatches, List.length_map, List.length_range, List.length_replicate]
  norm_num [nAnomalyBatches, defaultAEConfig]

/-- Claim C5 as amended: `score`'s loss path splits the input dataframe into
`ceil(len(df) / batch_size)` batches of the training `batch_size` (not the
evaluation batch size), reconstructs each slice without corruption, and the
concatenated per-feature-type loss tensors cover every input row in order. -/
theorem claim_C5_anomaly_batching {α : Type} (batchSize : Nat) (df : List α)
    (rowLoss : α → List ℚ) (hbs : 0 < batchSize) :
    (anomalyBatches batchSize df).flatten = df
    ∧ (anomalyBatches batchSize df).length = (df.length + batchSize - 1) / batchSize
    ∧ (anomalyLossTensor rowLoss batchSize df).length = df.length := by
  have hflat : (anomalyBatches batchSize df).flatten = df := by
    rw [anomalyBatches]
    exact chunks_flatten batchSize (nAnomalyBatches batchSize df.length) df
      (le_nAnomalyBatches_mul batchSize hbs df.length)
  refine ⟨hflat, ?_, ?_⟩
  · rw [anomalyBatches, List.length_map, List.length_range]
    exact nAnomalyBatches_eq_ceil batchSize hbs df.length
  · rw [anomalyLossTensor, ← List.map_flatten, hflat, List.length_map]

/-- Witness for the amended batching claim: batch size 2 over three rows gives
two batches that concatenate back to the input. -/
theorem claim_C5_anomaly_batching_witness :
    (0 : Nat) < 2
    ∧ (anomalyBatches 2 [(1 : ℚ), 2, 3]).flatten = [(1 : ℚ), 2, 3]
    ∧ (anomalyBatches 2 [(1 : ℚ), 2, 3]).length = (3 + 2 - 1) / 2 := by
  have h := claim_C5_anomaly_batching 2 [(1 : ℚ), 2, 3] (fun x => [x]) (by decide)
  exact ⟨by decide, h.1, h.2.1⟩

/-- The runtime type of `train_data` passed to `fit`: the `isinstance` check
accepts a pandas DataFrame, a torch DataLoader, or a torch Dataset; anything
else (a numpy array, a series, ...) is unsupported. -/
inductive TrainDataKind where
  | dataFrame
  | dataLoader
  | dataset
  | otherObject
  deriving DecidableEq, Repr

/-- `isinstance(train_data, (pd.DataFrame, DataLoader, Dataset))`. -/
def isSupportedTrainData : TrainDataKind → Bool
  | .dataFrame => true
  | .dataLoader => true
  | .dataset => true
  | .otherObject => false

/-- The arguments of `fit` that its eager input checks read; `val_data`,
`rank` and `world_size` only matter through presence, so `val_data`'s payload
type is a parameter. -/
structure FitArgs (V : Type) where
  trainKind : TrainDataKind
  valData : Option V
  runValidation : Bool
  useValForLossStats : Bool
  rank : Option Nat
  worldSize : Option Nat

/-- Embedding of the checks at the top of `fit` (autoencoder.py lines
680-695), in source order: unsupported train-data type raises `TypeError`;
distributed mode with a missing `rank` or `world_size` raises `ValueError`;
centralized mode with either of them present raises `ValueError`;
`run_validation` or `use_val_for_loss_stats` without `val_data` raises
`ValueError`. -/
def fitChecks {V : Type} (distributedTraining : Bool) (a : FitArgs V) :
    Except ErrKind Unit :=
  if ¬ isSupportedTrainData a.trainKind then .error .typeError
  else if distributedTraining ∧ (a.rank.isNone ∨ a.worldSize.isNone) then .error .valueError
  else if ¬ distributedTraining ∧ (a.rank.isSome ∨ a.worldSize.isSome) then .error .valueError
  else if a.runValidation ∧ a.valData.isNone then .error .valueError
  else if a.useValForLossStats ∧ a.valData.isNone then .error .valueError
  else .ok ()

/-- `fit` as a whole: the checks run first, and only if they pass does the
rest of `fit` (data wrapping, model build, `_fit_data`) run; that remainder is
abstracted as `trainBody`. -/
def fitModelled {V σ : Type} (distributedTraining : Bool) (a : FitArgs V)
    (trainBody : FitArgs V → σ) : Except ErrKind σ := do
  let _ ← fitChecks distributedTraining a
  pure (trainBody a)

theorem fitModelled_of_checks_error {V σ : Type} (distributedTraining : Bool)
    (a : FitArgs V) (trainBody : FitArgs V → σ) (e : ErrKind)
    (h : fitChecks distributedTraining a = .error e) :
    fitModelled distributedTraining a trainBody = .error e := by
  rw [fitModelled, h]
  rfl

/-- Claim C8: `fit` raises `TypeError` for an unsupported train-data type;
`ValueError` when distributed mode misses `rank` or `world_size`, when
centralized mode receives either, or when validation (or loss stats from
validation) is requested without validation data — and all of these fire at
the call boundary, i.e. the error is the same for every possible training
body, which is never entered. -/
theorem claim_C8_fit_input_checks {V σ : Type} (distributedTraining : Bool)
    (a : FitArgs V) (trainBody : FitArgs V → σ) :
    (¬ isSupportedTrainData a.trainKind →
      fitModelled distributedTraining a trainBody = .error .typeError)
    ∧ (isSupportedTrainData a.trainKind →
        distributedTraining → (a.rank.isNone ∨ a.worldSize.isNone) →
      fitModelled distributedTraining a trainBody = .error .valueError)
    ∧ (isSupportedTrainData a.trainKind →
        ¬ distributedTraining → (a.rank.isSome ∨ a.worldSize.isSome) →
      fitModelled distributedTraining a trainBody = .error .valueError)
    ∧ (isSupportedTrainData a.trainKind →
        ¬ (distributedTraining ∧ (a.rank.isNone ∨ a.worldSize.isNone)) →
        ¬ (¬ distributedTraining ∧ (a.rank.isSome ∨ a.worldSize.isSome)) →
        a.runValidation → a.valData.isNone →
      fitModelled distributedTraining a trainBody = .error .valueError)
    ∧ (isSupportedTrainData a.trainKind →
        ¬ (distributedTraining ∧ (a.rank.isNone ∨ a.worldSize.isNone)) →
        ¬ (¬ distributedTraining ∧ (a.rank.isSome ∨ a.worldSize.isSome)) →
        a.useValForLossStats → a.valData.isNone →
      fitModelled distributedTraining a trainBody = .error .valueError)
    ∧ (fitChecks distributedTraining a = .ok () →
      fitModelled distributedTraining a trainBody = .ok (trainBody a)) := by
  refine ⟨?_, ?_, ?_, ?_, ?_, ?_⟩
  · intro h
    refine fitModelled_of_checks_error _ _ _ _ ?_
    rw [fitChecks, if_pos h]
  · intro hsup hdist hmiss
    refine fitModelled_of_checks_error _ _ _ _ ?_
    rw [fitChecks, if_neg (not_not_intro hsup), if_pos ⟨hdist, hmiss⟩]
  · intro hsup hdist hpresent
    refine fitModelled_of_checks_error _ _ _ _ ?_
    rw [fitChecks, if_neg (not_not_intro hsup),
      if_neg (fun hc => hdist hc.1), if_pos ⟨hdist, hpresent⟩]
  · intro hsup h2 h3 hrv hnoval
    refine fitModelled_of_checks_error _ _ _ _ ?_
    rw [fitChecks, if_neg (not_not_intro hsup), if_neg h2, if_neg h3,
      if_pos ⟨hrv, hnoval⟩]
  · intro hsup h2 h3 huv hnoval
    refine fitModelled_of_checks_error _ _ _ _ ?_
    rw [fitChecks, if_neg (not_not_intro hsup), if_neg h2, if_neg h3]
    by_cases hrv : a.runValidation ∧ a.valData.isNone
    · rw [if_pos hrv]
    · rw [if_neg hrv, if_pos ⟨huv, hnoval⟩]
  · intro h
    rw [fitModelled, h]
    rfl

/-- Witness for the fit-check claim: passing an unsupported train-data object
fails with `TypeError` no matter what the training body would have done, and
a well-formed centralized call reaches the body. -/
theorem claim_C8_fit_input_checks_witness :
    fitModelled (V := Unit) (σ := Unit) false
      ⟨TrainDataKind.otherObject, none, false, false, none, none⟩ (fun _ => ())
      = .error .typeError
    ∧ fitModelled (V := Unit) (σ := Unit) false
      ⟨TrainDataKind.dataFrame, none, false, false, none, none⟩ (fun _ => ())
      = .ok () := by
  constructor
  · exact (claim_C8_fit_input_checks (V := Unit) (σ := Unit) false
      ⟨TrainDataKind.otherObject, none, false, false, none, none⟩ (fun _ => ())).1
      (by decide)
  · exact (claim_C8_fit_input_checks (V := Unit) (σ := Unit) false
      ⟨TrainDataKind.dataFrame, none, false, false, none, none⟩ (fun _ => ())).2.2.2.2.2
      rfl

/-- The optimizers `_build_optimizer` supports. -/
inductive OptimKind where
  | adam
  | sgd
  deriving DecidableEq, Repr

/-- `_build_optimizer` (autoencoder.py lines 436-456): `'adam'` and `'sgd'`
are supported; any other configured name raises `ValueError`. -/
def buildOptimizer (name : String) : Except ErrKind OptimKind :=
  if name = "adam" then .ok .adam
  else if name = "sgd" then .ok .sgd
  else .error .valueError

/-- The engine state that `fit`'s build step touches: the optimizer slot
(`self.optim`, `None` until built), the fitted feature specs and scalers
(`numeric_fts`/`binary_fts`/`categorical_fts` collectively, abstracted as one
value of type `φ`), whether the string logger was replaced by a logger object
(`_build_logger`), and `self.feature_loss_stats` (abstracted as `ψ`). -/
structure AEState (φ ψ : Type) where
  optim : Option OptimKind
  features : Option φ
  loggerBuilt : Bool
  featureLossStats : Option ψ

/-- `_build_model` (autoencoder.py lines 391-434): `_init_features` fits the
feature maps from the training dataframe (abstracted as `featuresOf`), the
model is built against them, `_build_optimizer` fills the optimizer slot, and
`_build_logger` replaces the logger. -/
def buildModel {δ φ ψ : Type} (featuresOf : Option δ → φ) (optName : String)
    (st : AEState φ ψ) (df : Option δ) : Except ErrKind (AEState φ ψ) := do
  let o ← buildOptimizer optName
  pure { st with features := some (featuresOf df), optim := some o, loggerBuilt := true }

/-- One `fit` call's effect on the engine state (autoencoder.py lines
710-721): `_build_model` runs only when `self.optim is None` (the first
call); `_fit_data` then updates only `self.feature_loss_stats` (abstracted as
`statsOf`), never the feature maps or the optimizer slot. -/
def fitStateStep {δ φ ψ : Type} (featuresOf : Option δ → φ) (statsOf : δ → ψ)
    (optName : String) (st : AEState φ ψ) (trainDf : δ) :
    Except ErrKind (AEState φ ψ) := do
  let st1 ← if st.optim.isNone then buildModel featuresOf optName st (some trainDf)
    else pure st
  pure { st1 with featureLossStats := some (statsOf trainDf) }

/-- A sequence of `fit` calls, threading the engine state. -/
def fitMany {δ φ ψ : Type} (featuresOf : Option δ → φ) (statsOf : δ → ψ)
    (optName : String) : AEState φ ψ → List δ → Except ErrKind (AEState φ ψ)
  | st, [] => .ok st
  | st, d :: ds =>
    match fitStateStep featuresOf statsOf optName st d with
    | .error e => .error e
    | .ok st1 => fitMany featuresOf statsOf optName st1 ds

theorem fitStateStep_skip {δ φ ψ : Type} (featuresOf : Option δ → φ)
    (statsOf : δ → ψ) (optName : String) (st : AEState φ ψ) (d : δ)
    (hsome : st.optim.isSome = true) :
    fitStateStep featuresOf statsOf optName st d
      = .ok { st with featureLossStats := some (statsOf d) } := by
  obtain ⟨x, hx⟩ := Option.isSome_iff_exists.mp hsome
  have hcond : st.optim.isNone = false := by rw [hx]; rfl
  rw [fitStateStep, hcond]
  rfl

theorem fitStateStep_build {δ φ ψ : Type} (featuresOf : Option δ → φ)
    (statsOf : δ → ψ) (optName : String) (st : AEState φ ψ) (d : δ)
    (o : OptimKind) (hfresh : st.optim = none)
    (ho : buildOptimizer optName = .ok o) :
    fitStateStep featuresOf statsOf optName st d
      = .ok { optim := some o, features := some (featuresOf (some d)),
              loggerBuilt := true, featureLossStats := some (statsOf d) } := by
  rw [fitStateStep, hfresh, buildModel, ho]
  rfl

theorem fitMany_preserves {δ φ ψ : Type} (featuresOf : Option δ → φ)
    (statsOf : δ → ψ) (optName : String) :
    ∀ (ds : List δ) (st st' : AEState φ ψ), st.optim.isSome = true →
      fitMany featuresOf statsOf optName st ds = .ok st' →
      st'.features = st.features ∧ st'.optim = st.optim := by
  intro ds
  induction ds with
  | nil =>
    intro st st' _ h
    rw [fitMany] at h
    injection h with h
    subst h
    exact ⟨rfl, rfl⟩
  | cons d ds ih =>
    intro st st' hsome h
    rw [fitMany, fitStateStep_skip featuresOf statsOf optName st d hsome] at h
    have h' : fitMany featuresOf statsOf optName
        { st with featureLossStats := some (statsOf d) } ds = .ok st' := h
    exact ih { st with featureLossStats := some (statsOf d) } st' hsome h'

/-- Claim C9: the model, feature maps, optimizer and logger are built only on
the first `fit` call, guarded by the optimizer slot being unset; on any later
call with the optimizer set, the build step is skipped entirely — the call
changes nothing but the loss stats — so across any sequence of further fit
calls the fitted feature maps stay exactly those of the first call. -/
theorem claim_C9_build_once {δ φ ψ : Type} (featuresOf : Option δ → φ)
    (statsOf : δ → ψ) (optName : String) (o : OptimKind) (st0 : AEState φ ψ)
    (d1 : δ) (ds : List δ) (st1 : AEState φ ψ)
    (hfresh : st0.optim = none) (ho : buildOptimizer optName = .ok o)
    (hstep : fitStateStep featuresOf statsOf optName st0 d1 = .ok st1) :
    st1.optim = some o
    ∧ st1.features = some (featuresOf (some d1))
    ∧ st1.loggerBuilt = true
    ∧ (∀ (st : AEState φ ψ) (d : δ), st.optim.isSome = true →
        fitStateStep featuresOf statsOf optName st d
          = .ok { st with featureLossStats := some (statsOf d) })
    ∧ ∀ st2, fitMany featuresOf statsOf optName st1 ds = .ok st2 →
        st2.features = some (featuresOf (some d1)) ∧ st2.optim = some o := by
  rw [fitStateStep_build featuresOf statsOf optName st0 d1 o hfresh ho] at hstep
  injection hstep with hstep
  subst hstep
  refine ⟨rfl, rfl, rfl, fun st d h => fitStateStep_skip featuresOf statsOf optName st d h, ?_⟩
  intro st2 h2
  exact fitMany_preserves featuresOf statsOf optName ds
    { optim := some o, features := some (featuresOf (some d1)), loggerBuilt := true,
      featureLossStats := some (statsOf d1) } st2 rfl h2

/-- Witness for the build-once claim: after a first fit on dataframe `7` and
two further fits on `8` and `9`, the feature maps are still those fitted from
`7`, and the optimizer slot still holds the adam optimizer built first. -/
theorem claim_C9_build_once_witness :
    (AEState.features (φ := Nat) (ψ := Nat)
        ⟨some OptimKind.adam, some 7, true, some 7⟩ = some 7)
    ∧ (AEState.features (φ := Nat) (ψ := Nat)
        ⟨some OptimKind.adam, some 7, true, some 9⟩ = some 7)
    ∧ (AEState.optim (φ := Nat) (ψ := Nat)
        ⟨some OptimKind.adam, some 7, true, some 9⟩ = some OptimKind.adam) := by
  have h := claim_C9_build_once (fun d : Option Nat => d.getD 0) (fun d : Nat => d)
    "adam" OptimKind.adam ⟨none, none, false, none⟩ 7 [8, 9]
    ⟨some OptimKind.adam, some 7, true, some 7⟩ rfl rfl rfl
  have h5 := h.2.2.2.2 ⟨some OptimKind.adam, some 7, true, some 9⟩ rfl
  exact ⟨h.2.1, h5.1, h5.2⟩

end DFEncoder
